import Mathlib

/-!
Verification of the itsocr durable objects.

Shallow embedding of the OCR session actor
(`src/durable-objects/ocr-session.ts`), the dashboard actor
(`src/durable-objects/dashboard-sessions.ts`) and the repetition
detector of the earlier single-page session variant (the
`detectRepetition` / `trimRepetition` functions), together with proofs
about them.

Modelling conventions:
- JS strings are modelled as `String` for the session/dashboard part and
  as `List Char` for the repetition detector (where index arithmetic
  dominates).
- The upstream model stream is modelled as the list of already-parsed
  `response` fragments, in arrival order (the code's JSON line parsing
  is not itself under test; unparseable and empty lines contribute no
  fragment, and an empty `response` string is skipped by the code's
  `if (chunk.response)` truthiness test, which the model keeps).
- The actor's concurrency is modelled by a small-step machine: the
  background task `processOCR` is cut into the atomic segments between
  its `await` points (one segment per loop iteration), and a schedule
  interleaves task steps with `handleCancel` invocations.  Wall-clock
  time is not modelled (`processingTimeMs` stays whatever it was).
- Database writes (`db.execute`) and dashboard notifications
  (`notifyDashboard`) are recorded as trace events next to the
  WebSocket broadcasts.
-/

set_option linter.unusedVariables false
set_option maxRecDepth 8000

namespace Itsocr

/-- Session status, `'pending' | 'processing' | 'completed' | 'failed' | 'cancelled'`. -/
inductive Status
  | pending
  | processing
  | completed
  | failed
  | cancelled
deriving DecidableEq

/-- The mutable per-session fields of the `OCRSession` durable object
(lines 47-54 of `ocr-session.ts`).  The `abortController` field is
abstracted to whether a controller is installed. -/
structure St where
  imageId : Option String
  userId : Option String
  isProcessing : Bool
  isCancelled : Bool
  extractedText : String
  status : Status
  processingTimeMs : Nat
  abortSet : Bool
deriving DecidableEq

/-- The body of a `/process` request (`ProcessRequest`), restricted to the
fields the state machine reads. -/
structure ProcessRequest where
  imageId : String
  userId : String
deriving DecidableEq

/-- Synchronous outcome of `handleProcess`. -/
inductive ProcResp
  | accepted
  | alreadyProcessing
deriving DecidableEq

/-- Synchronous outcome of `handleCancel`. -/
inductive CancelResp
  | cancelled
  | notProcessing
deriving DecidableEq

/-- The message sent to a just-connected WebSocket by `handleWebSocket`
(lines 110-121): either a bare `connected` acknowledgement or a
`reconnected` snapshot carrying text and status. -/
inductive ConnectMsg
  | connected
  | reconnected (text : String) (status : Status)
deriving DecidableEq

/-- `handleProcess` (lines 126-163): reject with 409 `Already processing`
while a run is active, leaving the state untouched (the `isProcessing`
check precedes every mutation); otherwise record identity, set the
processing flags, clear the text, install an abort controller and accept.
The accepted branch then launches `processOCR` detached via
`state.waitUntil`; the task itself is modelled separately by `step`. -/
def handleProcess (s : St) (r : ProcessRequest) : St × ProcResp :=
  if s.isProcessing then (s, ProcResp.alreadyProcessing)
  else
    ({ s with
        imageId := some r.imageId
        userId := some r.userId
        isProcessing := true
        isCancelled := false
        status := Status.processing
        extractedText := ""
        abortSet := true },
      ProcResp.accepted)

/-- `handleReset` (lines 210-222): unconditionally clear the run state.
`imageId` and `userId` are not touched. -/
def handleReset (s : St) : St :=
  { s with
      isProcessing := false
      isCancelled := false
      extractedText := ""
      status := Status.pending
      processingTimeMs := 0
      abortSet := false }

/-- The snapshot returned by `handleStatus` (lines 224-235). -/
structure StatusResp where
  imageId : Option String
  status : Status
  isProcessing : Bool
  textLength : Nat
  processingTimeMs : Nat
deriving DecidableEq

/-- `handleStatus` (lines 224-235): a read-only snapshot. -/
def handleStatus (s : St) : StatusResp :=
  { imageId := s.imageId
    status := s.status
    isProcessing := s.isProcessing
    textLength := s.extractedText.length
    processingTimeMs := s.processingTimeMs }

/-- The branch condition of `handleWebSocket`'s initial-state send
(line 111, `if (this.imageId)`): true when a run has ever started on this
session instance. -/
def connectTakesResyncBranch (s : St) : Bool :=
  s.imageId.isSome

/-- The initial message chosen by `handleWebSocket` (lines 110-121): inside
the `if (this.imageId)` branch a nested conditional sends `reconnected`
for `processing` and `completed` status and a bare `connected` for every
other status; outside the branch always `connected`. -/
def connectReply (s : St) : ConnectMsg :=
  if connectTakesResyncBranch s then
    if s.status = Status.processing then
      ConnectMsg.reconnected s.extractedText Status.processing
    else if s.status = Status.completed then
      ConnectMsg.reconnected s.extractedText Status.completed
    else ConnectMsg.connected
  else ConnectMsg.connected

/-! ## Dashboard actor (`dashboard-sessions.ts`) -/

/-- The body of an `/image-update` request. -/
structure ImageUpdate where
  imageId : String
  status : String
  extractedText : String
deriving DecidableEq

/-- Dashboard broadcast events (`DashboardWSMessage`, minus the
connection-scoped `connected`). -/
inductive DEv
  | imageUpdate (id status text : String)
  | noProcessing
deriving DecidableEq

/-- `Set.add` on the insertion-ordered JS `Set<string>` backing
`processingImages`. -/
def setAdd (l : List String) (x : String) : List String :=
  if x ∈ l then l else l ++ [x]

/-- `Set.delete` on the JS `Set<string>`. -/
def setDelete (l : List String) (x : String) : List String :=
  l.filter (fun y => y ≠ x)

/-- `handleImageUpdate` (lines 84-119 of `dashboard-sessions.ts`): add the
image to `processingImages` when the incoming status is `processing`,
delete it for any other status; broadcast an `image-update` event; when
the set is empty afterwards, additionally broadcast `no-processing`. -/
def handleImageUpdate (inflight : List String) (u : ImageUpdate) :
    List String × List DEv :=
  let inflight' :=
    if u.status = "processing" then setAdd inflight u.imageId
    else setDelete inflight u.imageId
  (inflight',
    [DEv.imageUpdate u.imageId u.status u.extractedText]
      ++ (if inflight'.length = 0 then [DEv.noProcessing] else []))

/-! ## The background extraction task (`processOCR` / `processPage`)

The task is modelled as a small-step machine.  A run is parametrised by
`pages : List (List String)`: the per-page lists of parsed stream
fragments (for a plain image there is exactly one page, line 296).  A
position `TPos` names the atomic segment the task will execute next;
each segment corresponds to one iteration of a loop in the source, so
every transition crosses at least one `await` point, where the actor
can serve a concurrent `handleCancel`. -/

/-- Trace events: database writes, WebSocket broadcasts and dashboard
notifications, in the order the code issues them. -/
inductive Ev
  | persistProcessing
  | persistCompleted (text : String)
  | persistFailed (msg : String)
  | persistCancelled (text : Option String)
  | statusMsg (st : Status)
  | chunk (t : String)
  | pageStart (p n : Nat)
  | pageComplete (p n : Nat) (t : String)
  | complete (t : String) (ms : Nat)
  | errorMsg (m : String)
  | cancelledMsg
  | dash (st : Status) (t : String)
deriving DecidableEq

/-- A broadcast that the spec calls terminal: `complete`, `error` or
`cancelled`. -/
def isTerminalEv : Ev → Bool
  | Ev.complete _ _ => true
  | Ev.errorMsg _ => true
  | Ev.cancelledMsg => true
  | _ => false

/-- A `chunk` broadcast. -/
def isChunkEv : Ev → Bool
  | Ev.chunk _ => true
  | _ => false

/-- A `page-start` or `page-complete` broadcast. -/
def isPageEv : Ev → Bool
  | Ev.pageStart _ _ => true
  | Ev.pageComplete _ _ _ => true
  | _ => false

/-- `PAGE_DELIMITER` (line 269). -/
def PAGE_DELIMITER : String := "\n\n---PAGE_BREAK---\n\n"

/-- JS `String.prototype.trim` on a character list: strip leading and
trailing whitespace. -/
def trimWS (l : List Char) : List Char :=
  ((l.dropWhile Char.isWhitespace).reverse.dropWhile Char.isWhitespace).reverse

/-- JS `.trim()` on a `String` (via `trimWS`; `String.trim` itself is
defined by well-founded recursion and does not reduce inside the
kernel, so the model goes through the character list). -/
def jsTrim (s : String) : String :=
  (trimWS s.toList).asString

/-- The text `processPage` returns for a page, given its stream fragments:
each truthy `chunk.response` is appended to `pageText` (lines 535-536,
554-555) and the result is trimmed (line 563).  Appending the skipped
empty fragments is a no-op, so the concatenation runs over all of them. -/
def pageTextOf (frags : List String) : String :=
  jsTrim (String.join frags)

/-- The `chunk` broadcasts a page's stream produces: one per truthy
fragment, in arrival order (lines 535-539). -/
def chunkEvents (frags : List String) : List Ev :=
  frags.filterMap (fun f => if f = "" then none else some (Ev.chunk f))

/-- Task position: the atomic segment `processOCR` executes next.
`tstart` is the prologue up to the status broadcast (lines 274-287);
`pageTop k` is the top of the page loop for 0-based page `k`
(lines 303-318); `stream k i` is the stream-read loop of page `k` with
`i` fragments already consumed (lines 515-545); `afterPages` is the
epilogue after the page loop (lines 333-372); `finished` means the task
has returned. -/
inductive TPos
  | tstart
  | pageTop (k : Nat)
  | stream (k i : Nat)
  | afterPages
  | finished
deriving DecidableEq

/-- One atomic segment of `processOCR`.  Every branch mirrors the source:

* `tstart`: the early-cancel check (line 275) returns silently; otherwise
  persist `processing`, broadcast `status`, notify the dashboard
  (lines 281-287) and enter the page loop.
* `pageTop k`: loop exit when `k` reaches `totalPages`; otherwise the
  per-page cancel check (line 308) returns silently, and for multi-page
  runs `page-start` is broadcast (line 315).
* `stream k i`: the cancel check at the top of the read loop (line 517)
  throws `Processing cancelled`, which the catch block at line 373 turns
  into `status='failed'`, a persisted failure, an `error` broadcast and a
  dashboard notification (lines 375-401); otherwise the next fragment is
  consumed and broadcast (lines 535-539), and at end of stream the page
  text is recorded, `page-complete` broadcast for multi-page runs
  (line 326) and `extractedText` updated to the join of the pages so far
  (line 330).
* `afterPages`: the post-loop cancel check (line 334) returns silently;
  otherwise the run completes: status `completed`, persisted final text,
  `complete` broadcast, dashboard notification (lines 339-372). -/
def step (pages : List (List String)) : TPos × St → (TPos × St) × List Ev
  | (TPos.tstart, s) =>
    if s.isCancelled then ((TPos.finished, s), [])
    else
      ((TPos.pageTop 0, s),
        [Ev.persistProcessing, Ev.statusMsg Status.processing,
          Ev.dash Status.processing ""])
  | (TPos.pageTop k, s) =>
    if k < pages.length then
      if s.isCancelled then ((TPos.finished, s), [])
      else
        ((TPos.stream k 0, s),
          if 1 < pages.length then [Ev.pageStart (k + 1) pages.length] else [])
    else ((TPos.afterPages, s), [])
  | (TPos.stream k i, s) =>
    if s.isCancelled then
      ((TPos.finished, { s with status := Status.failed, isProcessing := false }),
        [Ev.persistFailed "Processing cancelled",
          Ev.errorMsg "Processing cancelled", Ev.dash Status.failed ""])
    else
      let frags := pages.getD k []
      if i < frags.length then
        let f := frags.getD i ""
        ((TPos.stream k (i + 1), s), if f = "" then [] else [Ev.chunk f])
      else
        ((TPos.pageTop (k + 1),
            { s with
                extractedText :=
                  String.intercalate PAGE_DELIMITER
                    ((pages.take (k + 1)).map pageTextOf) }),
          if 1 < pages.length then
            [Ev.pageComplete (k + 1) pages.length (pageTextOf frags)]
          else [])
  | (TPos.afterPages, s) =>
    if s.isCancelled then ((TPos.finished, s), [])
    else
      ((TPos.finished, { s with status := Status.completed, isProcessing := false }),
        [Ev.persistCompleted
            (String.intercalate PAGE_DELIMITER (pages.map pageTextOf)),
          Ev.complete
            (String.intercalate PAGE_DELIMITER (pages.map pageTextOf))
            s.processingTimeMs,
          Ev.dash Status.completed
            (String.intercalate PAGE_DELIMITER (pages.map pageTextOf))])
  | (TPos.finished, s) => ((TPos.finished, s), [])

/-- `handleCancel` (lines 165-208): reject with 400 when no run is active;
otherwise set the cancel flag, abort the upstream call, flip the status
to `cancelled`, persist `cancelled` with the trimmed text (`|| null`),
broadcast `cancelled`, and notify the dashboard (guarded by
`if (this.imageId)`). -/
def handleCancel (s : St) : (St × CancelResp) × List Ev :=
  if s.isProcessing then
    (({ s with isCancelled := true, status := Status.cancelled, isProcessing := false },
        CancelResp.cancelled),
      [Ev.persistCancelled
          (if jsTrim s.extractedText = "" then none
           else some (jsTrim s.extractedText)),
        Ev.cancelledMsg]
        ++ (match s.imageId with
            | some _ => [Ev.dash Status.cancelled s.extractedText]
            | none => []))
  else ((s, CancelResp.notProcessing), [])

/-- A scheduler move: run the task's next atomic segment, or deliver a
`handleCancel` request at the current `await` point. -/
inductive Move
  | task
  | cancel
deriving DecidableEq

/-- Run a schedule of moves from a task configuration, collecting the
trace.  The schedule makes the interleaving of the single-threaded actor
explicit: `handleCancel` can run whenever the task is suspended at an
`await`, i.e. between two `step`s. -/
def exec (pages : List (List String)) :
    List Move → TPos × St → (TPos × St) × List Ev
  | [], cfg => (cfg, [])
  | Move.task :: ms, cfg =>
    let out := step pages cfg
    let rest := exec pages ms out.1
    (rest.1, out.2 ++ rest.2)
  | Move.cancel :: ms, (pos, s) =>
    let out := handleCancel s
    let rest := exec pages ms (pos, out.1.1)
    (rest.1, out.2 ++ rest.2)

/-- A never-touched session: the field initialisers of the class
(lines 47-54). -/
def pendingSt : St :=
  { imageId := none, userId := none, isProcessing := false,
    isCancelled := false, extractedText := "", status := Status.pending,
    processingTimeMs := 0, abortSet := false }

/-- A sample `/process` request body. -/
def req0 : ProcessRequest := { imageId := "img-1", userId := "user-1" }

/-- A freshly started session: the state `handleProcess` leaves behind
when it accepts (the state the detached task starts from). -/
def startedSt : St := (handleProcess pendingSt req0).1

/-- A session whose run has failed: counterexample state for C3. -/
def failedSt : St :=
  { imageId := some "img-1", userId := some "user-1", isProcessing := false,
    isCancelled := false, extractedText := "partial text",
    status := Status.failed, processingTimeMs := 7, abortSet := false }

/-- Number of task steps a cancel-free run needs to reach `finished`. -/
def movesFor (pages : List (List String)) : Nat :=
  3 + (pages.map (fun p => p.length + 2)).sum

/-- The block of broadcasts the claim expects around multi-page page `k`
(0-based), for a run of `n` pages: `page-start`, the chunks, then
`page-complete` with the page's text. -/
def expectedPageBlock (n k : Nat) (frags : List String) : List Ev :=
  Ev.pageStart (k + 1) n :: chunkEvents frags
    ++ [Ev.pageComplete (k + 1) n (pageTextOf frags)]

/-- The final text of a completed run: the per-page texts joined by the
page-break marker (line 345). -/
def finalTextOf (pages : List (List String)) : String :=
  String.intercalate PAGE_DELIMITER (pages.map pageTextOf)

/-- The prologue trace of the task (lines 281-287). -/
def startEvts : List Ev :=
  [Ev.persistProcessing, Ev.statusMsg Status.processing,
    Ev.dash Status.processing ""]

/-- The completion trace of the task (lines 348-372). -/
def endEvts (pages : List (List String)) (ms : Nat) : List Ev :=
  [Ev.persistCompleted (finalTextOf pages),
    Ev.complete (finalTextOf pages) ms,
    Ev.dash Status.completed (finalTextOf pages)]

/-! ## Repetition detector (earlier single-page session variant)

`detectRepetition` and `trimRepetition` live in the earlier single-page
version of the session object (`src/unnamed/part_000`, lines 606-650),
together with the streaming loop that invokes them (lines 437-514).
Text is modelled as `List Char`; JS string primitives (`slice`,
`indexOf`) become the index functions below. -/

/-- Does `pat` occur in `s` at index `i`?  (`s.slice(i, i+pat.length) ===
pat`, with the occurrence required to fit inside `s`.) -/
def occursAt (s pat : List Char) (i : Nat) : Bool :=
  pat.isPrefixOf (s.drop i)

/-- The number of occurrences of `pat` in `s` (overlaps counted).  The
source counts with `indexOf(phrase, pos + 1)` in a loop, visiting each
match index exactly once; the model counts the match indices directly. -/
def countOcc (s pat : List Char) : Nat :=
  ((List.range (s.length + 1)).filter (fun i => occursAt s pat i)).length

/-- `text.slice(-500)` (line 609): the trailing window the detector
scans. -/
def tailWindow (t : List Char) : List Char :=
  t.drop (t.length - 500)

/-- `tail.slice(-len)` (line 613): the length-`len` suffix of the
window. -/
def tailPhrase (t : List Char) (len : Nat) : List Char :=
  (tailWindow t).drop ((tailWindow t).length - len)

/-- `tail.slice(0, -len)` (line 614): the window with its length-`len`
suffix removed. -/
def tailRest (t : List Char) (len : Nat) : List Char :=
  (tailWindow t).take ((tailWindow t).length - len)

/-- `detectRepetition` (lines 606-628): texts shorter than 50 characters
never trigger; otherwise for each phrase length 20..150 that fits twice
into the 500-character trailing window, the window's suffix of that
length is counted in the remainder of the window, and the detector
fires when the count reaches 2. -/
def detectRepetition (t : List Char) : Bool :=
  if t.length < 50 then false
  else
    (List.range' 20 131).any (fun len =>
      if (tailWindow t).length < 2 * len then false
      else decide (2 ≤ countOcc (tailRest t len) (tailPhrase t len)))

/-- `text.slice(start, start + len)`: the phrase `trimRepetition` tests. -/
def seg (t : List Char) (start len : Nat) : List Char :=
  (t.drop start).take len

/-- `text.indexOf(pat, i)` scanning upward from `i`: the first index at
which `pat` occurs, or `none`.  The `fuel` argument bounds the scan by
the remaining indices, exactly as `indexOf` stops at the end of the
string. -/
def idxOfFromAux (t pat : List Char) : Nat → Nat → Option Nat
  | _, 0 => none
  | i, fuel + 1 =>
    if occursAt t pat i then some i else idxOfFromAux t pat (i + 1) fuel

/-- `text.indexOf(pat, start)`. -/
def idxOfFrom (t pat : List Char) (start : Nat) : Option Nat :=
  idxOfFromAux t pat start (t.length + 1 - start)

/-- The inner loop of `trimRepetition` (lines 636-644) for one phrase
length: scan `start` upward through `[0, text.length - len*2)`; at the
first `start` whose phrase recurs at `text.indexOf(phrase, start+len)`,
return that next occurrence (the loop sets `bestCutPoint` and breaks). -/
def trimCutForAux (t : List Char) (len : Nat) : Nat → Nat → Option Nat
  | _, 0 => none
  | start, fuel + 1 =>
    match idxOfFrom t (seg t start len) (start + len) with
    | some nxt => some nxt
    | none => trimCutForAux t len (start + 1) fuel

/-- The inner loop of `trimRepetition` for phrase length `len`, over all
admissible starts. -/
def trimCutFor (t : List Char) (len : Nat) : Option Nat :=
  trimCutForAux t len 0 (t.length - len * 2)

/-- The outer loop of `trimRepetition` (lines 633-647): phrase lengths
20..150 in order; lengths that do not fit twice are skipped, and the
first length that produces a cut wins (the `if (bestCutPoint <
text.length) break`). -/
def trimCutAux (t : List Char) : Nat → Nat → Option Nat
  | _, 0 => none
  | len, fuel + 1 =>
    if t.length < len * 2 then trimCutAux t (len + 1) fuel
    else
      match trimCutFor t len with
      | some c => some c
      | none => trimCutAux t (len + 1) fuel

/-- The cut point `trimRepetition` settles on, if any. -/
def trimCut (t : List Char) : Option Nat :=
  trimCutAux t 20 131

/-- `trimRepetition` (lines 630-650): truncate at the cut point and trim,
or return the text unchanged when no phrase of length 20..150 recurs.
(The source's final `bestCutPoint < text.length` test is exactly
"a cut was found", since any found `indexOf` result lies inside the
text.) -/
def trimRepetition (t : List Char) : List Char :=
  match trimCut t with
  | some c => trimWS (t.take c)
  | none => t

/-- The streaming read loop of the single-page variant (lines 437-480),
under no concurrent cancel: each read delivers one parsed fragment;
truthy fragments are appended to `extractedText` and bump `chunkCount`;
after every read, once `chunkCount` is a positive multiple of 10,
`detectRepetition` runs on the accumulated text, and on detection the
loop breaks, leaving the remaining reads unconsumed.  Returns the
accumulated text, the `repetitionDetected` flag and the unconsumed
fragments. -/
def streamLoop : List (List Char) → List Char → Nat →
    List Char × Bool × List (List Char)
  | [], acc, _ => (acc, false, [])
  | f :: rest, acc, cc =>
    let acc' := if f = [] then acc else acc ++ f
    let cc' := if f = [] then cc else cc + 1
    if cc' % 10 = 0 ∧ 0 < cc' ∧ detectRepetition acc' = true then
      (acc', true, rest)
    else streamLoop rest acc' cc'

/-- The committed text of a run of the single-page variant (lines
485-514): after the loop, `trimRepetition` is applied exactly when the
flag was set (lines 492-494), and the final text is trimmed (line 514).
(The trailing half-line buffer, skipped on detection, is folded into
the fragment list.) -/
def commitText (frags : List (List Char)) : List Char :=
  trimWS
    (match streamLoop frags [] 0 with
     | (acc, detected, _) => if detected then trimRepetition acc else acc)

/-! ### Claim-worded comparison predicates and concrete inputs -/

/-- Modelled from the claim wording of C5 (refinement comparison only,
not from the source): "the committed text contains a trailing substring
of length L (within the scanned phrase-length bounds) repeated at least
twice" — some suffix of length 20..150 that fits twice occurs at least
twice in the text. -/
def specTrailingRepeat (t : List Char) : Bool :=
  (List.range' 20 131).any (fun len =>
    decide (2 * len ≤ t.length) &&
      decide (2 ≤ countOcc t (t.drop (t.length - len))))

/-- A 20-character phrase with pairwise-distinct characters. -/
def phraseP : List Char := "abcdefghijklmnopqrst".toList

/-- Ten distinct filler characters, disjoint from `phraseP`. -/
def fillerA : List Char := "0123456789".toList

/-- Counterexample text for C4: filler then `phraseP` twice — its length-20
suffix occurs exactly once earlier in the window. -/
def t4 : List Char := fillerA ++ phraseP ++ phraseP

/-- Counterexample text for C5: `phraseP` twice then filler — an internal
repeat with no repeated trailing substring. -/
def t5 : List Char := phraseP ++ phraseP ++ fillerA

/-- Counterexample fragment list for C6: ten copies of `phraseP` followed
by one more fragment; repetition is detected at chunk 10, before the
last fragment is read. -/
def c6frags : List (List Char) := List.replicate 10 phraseP ++ [fillerA]

/-- The single-page fragment schedule used by the C1/C2 scenarios. -/
def onePage : List (List String) := [["AB", "CD"]]

/-- Schedule for C1: run up to the first fragment, deliver the cancel
while the task sits at the top of the read loop, then let the task
observe the flag. -/
def c1Moves : List Move :=
  [Move.task, Move.task, Move.task, Move.cancel, Move.task]

/-- Schedule for C2's mid-stream observation: both fragments consumed and
broadcast, stream end not yet reached. -/
def c2MidMoves : List Move := [Move.task, Move.task, Move.task, Move.task]

/-! ## Helper lemmas -/

/-- A list with two distinct members has length at least two. -/
theorem two_mem_two_le_length {α : Type} (l : List α) (a b : α)
    (ha : a ∈ l) (hb : b ∈ l) (hab : a ≠ b) : 2 ≤ l.length := by
  match l with
  | [] => cases ha
  | [x] =>
    rw [List.mem_singleton] at ha hb
    exact absurd (ha.trans hb.symm) hab
  | x :: y :: rest => simp only [List.length_cons]; omega

/-- Two occurrence counts force two distinct occurrence indices. -/
theorem countOcc_two_exists (s pat : List Char) (h : 2 ≤ countOcc s pat) :
    ∃ i j, i < j ∧ occursAt s pat i = true ∧ occursAt s pat j = true := by
  have hnd : ((List.range (s.length + 1)).filter
      (fun i => occursAt s pat i)).Nodup :=
    (List.nodup_range _).filter _
  unfold countOcc at h
  rcases hsplit : (List.range (s.length + 1)).filter (fun i => occursAt s pat i)
    with _ | ⟨x, tl⟩
  · rw [hsplit] at h; simp at h
  · rcases tl with _ | ⟨y, rest⟩
    · rw [hsplit] at h; simp at h
    · rw [hsplit] at hnd
      have hx : x ∈ (List.range (s.length + 1)).filter
          (fun i => occursAt s pat i) := by
        rw [hsplit]; exact List.mem_cons_self _ _
      have hy : y ∈ (List.range (s.length + 1)).filter
          (fun i => occursAt s pat i) := by
        rw [hsplit]; simp
      have hxy : x ≠ y := by
        intro he
        have := (List.nodup_cons.mp hnd).1
        exact this (he ▸ List.mem_cons_self _ _)
      have hxo : occursAt s pat x = true := (List.mem_filter.mp hx).2
      have hyo : occursAt s pat y = true := (List.mem_filter.mp hy).2
      rcases Nat.lt_or_ge x y with hlt | hge
      · exact ⟨x, y, hlt, hxo, hyo⟩
      · exact ⟨y, x, Nat.lt_of_le_of_ne hge (Ne.symm hxy), hyo, hxo⟩

/-- Two distinct occurrence indices of a nonempty pattern force an
occurrence count of at least two. -/
theorem exists_countOcc_two (s pat : List Char) (hpat : pat ≠ [])
    (i j : Nat) (hij : i < j) (hi : occursAt s pat i = true)
    (hj : occursAt s pat j = true) : 2 ≤ countOcc s pat := by
  have hjlen : j ≤ s.length := by
    have hpfx : pat <+: s.drop j := by
      rw [occursAt, List.isPrefixOf_iff_prefix] at hj
      exact hj
    have hle := hpfx.length_le
    rw [List.length_drop] at hle
    have hpos : 0 < pat.length := List.length_pos.mpr hpat
    omega
  have hmemj : j ∈ (List.range (s.length + 1)).filter
      (fun k => occursAt s pat k) :=
    List.mem_filter.mpr ⟨List.mem_range.mpr (by omega), hj⟩
  have hmemi : i ∈ (List.range (s.length + 1)).filter
      (fun k => occursAt s pat k) :=
    List.mem_filter.mpr ⟨List.mem_range.mpr (by omega), hi⟩
  exact two_mem_two_le_length _ i j hmemi hmemj (by omega)

/-! ## Claim theorems -/

/-- C8: `StartProcessing` fails with `AlreadyProcessing` and leaves the
whole state unchanged whenever a run is active; otherwise it resets
`accumulatedText`, sets `status=processing`, clears `cancelRequested`,
installs the abort controller and accepts, and a second call without an
intervening terminal state or `Reset` is rejected with the state
unchanged: exactly one acceptance and one rejection. -/
theorem c8_start_processing_once (s : St) (r r' : ProcessRequest) :
    (s.isProcessing = true → handleProcess s r = (s, ProcResp.alreadyProcessing)) ∧
    (s.isProcessing = false →
      (handleProcess s r).2 = ProcResp.accepted ∧
      (handleProcess s r).1.extractedText = "" ∧
      (handleProcess s r).1.status = Status.processing ∧
      (handleProcess s r).1.isCancelled = false ∧
      (handleProcess s r).1.isProcessing = true ∧
      (handleProcess s r).1.abortSet = true ∧
      (handleProcess (handleProcess s r).1 r').2 = ProcResp.alreadyProcessing ∧
      (handleProcess (handleProcess s r).1 r').1 = (handleProcess s r).1) := by
  cases h : s.isProcessing <;> simp [handleProcess, h]

/-- C8 witness: from a fresh session, the first `StartProcessing` is
accepted with the documented resets and the second is rejected without a
state change. -/
theorem c8_start_processing_once_witness :
    (handleProcess pendingSt req0).2 = ProcResp.accepted ∧
    (handleProcess pendingSt req0).1.extractedText = "" ∧
    (handleProcess pendingSt req0).1.status = Status.processing ∧
    (handleProcess pendingSt req0).1.isCancelled = false ∧
    (handleProcess pendingSt req0).1.isProcessing = true ∧
    (handleProcess pendingSt req0).1.abortSet = true ∧
    (handleProcess (handleProcess pendingSt req0).1 req0).2 = ProcResp.alreadyProcessing ∧
    (handleProcess (handleProcess pendingSt req0).1 req0).1 = (handleProcess pendingSt req0).1 :=
  (c8_start_processing_once pendingSt req0 req0).2 (by decide)

/-- C10: `Reset` clears the run state (processing flag, cancel flag,
accumulated text, status back to `pending`, processing time, abort
controller) but leaves `imageId` and `userId` unchanged, so the outer
`if (this.imageId)` branch of the connect handler is taken after a
`Reset` exactly as before it. -/
theorem c10_reset_preserves_identity (s : St) :
    (handleReset s).imageId = s.imageId ∧
    (handleReset s).userId = s.userId ∧
    (handleReset s).isProcessing = false ∧
    (handleReset s).isCancelled = false ∧
    (handleReset s).extractedText = "" ∧
    (handleReset s).status = Status.pending ∧
    (handleReset s).processingTimeMs = 0 ∧
    (handleReset s).abortSet = false ∧
    connectTakesResyncBranch (handleReset s) = connectTakesResyncBranch s := by
  simp [handleReset, connectTakesResyncBranch]

/-- C3 counterexample: a session whose run has started (`imageId` set) and
whose status is `failed` — not the untouched `pending` — receives the
bare `connected` acknowledgement, not the `reconnected` snapshot the
claim promises for every non-`pending` status. -/
theorem c3_failed_session_gets_bare_connected :
    connectReply failedSt = ConnectMsg.connected ∧
    failedSt.imageId.isSome = true ∧
    failedSt.status ≠ Status.pending := by decide

/-- C3 amended: the `reconnected` snapshot (carrying the current status
and `accumulatedText`) is sent exactly when a run has ever started and
the status is `processing` or `completed`; in every other case —
including `failed` and `cancelled` sessions — the observer gets the bare
`connected` acknowledgement. -/
theorem c3_reconnected_iff_processing_or_completed (s : St) :
    (connectTakesResyncBranch s = true ∧
        (s.status = Status.processing ∨ s.status = Status.completed) →
      connectReply s = ConnectMsg.reconnected s.extractedText s.status) ∧
    (connectTakesResyncBranch s = false ∨
        (s.status ≠ Status.processing ∧ s.status ≠ Status.completed) →
      connectReply s = ConnectMsg.connected) := by
  constructor
  · rintro ⟨hb, hst | hst⟩ <;> simp [connectReply, hb, hst]
  · rintro (hb | ⟨h1, h2⟩)
    · simp [connectReply, hb]
    · cases hb : connectTakesResyncBranch s <;>
        simp [connectReply, hb, h1, h2]

/-- C3 witness: a mid-run connect on a freshly started session gets the
`reconnected` snapshot with the current text and status. -/
theorem c3_reconnected_witness :
    connectReply startedSt =
      ConnectMsg.reconnected startedSt.extractedText startedSt.status :=
  (c3_reconnected_iff_processing_or_completed startedSt).1 (by decide)

/-- C9 counterexample: with `inFlight` already empty, a terminal
`RegisterTransition` still broadcasts `no-processing` — the set did not
*become* empty (it was empty before), yet the event is emitted, because
the code tests emptiness after the update rather than an
empty-transition. -/
theorem c9_noprocessing_when_already_empty :
    (handleImageUpdate []
        { imageId := "doc-1", status := "completed", extractedText := "t" }).2
      = [DEv.imageUpdate "doc-1" "completed" "t", DEv.noProcessing] ∧
    (handleImageUpdate []
        { imageId := "doc-1", status := "completed", extractedText := "t" }).1
      = [] := by decide

/-- C9 amended: `RegisterTransition` leaves `documentId` in `inFlight`
exactly when the status is `processing` (any other status removes it);
the first broadcast is the `image-update` event with id, status and text
snapshot; a `no-processing` event is additionally broadcast exactly when
`inFlight` is empty *after* the update; and the sequence
`processing` then `completed` from an empty dashboard emits exactly one
`no-processing`, at the second call. -/
theorem c9_inflight_membership_and_noprocessing
    (fl : List String) (u : ImageUpdate) (id t1 t2 : String) :
    (u.imageId ∈ (handleImageUpdate fl u).1 ↔ u.status = "processing") ∧
    ((handleImageUpdate fl u).2.head?
      = some (DEv.imageUpdate u.imageId u.status u.extractedText)) ∧
    (DEv.noProcessing ∈ (handleImageUpdate fl u).2 ↔
      (handleImageUpdate fl u).1.length = 0) ∧
    (((handleImageUpdate []
          { imageId := id, status := "processing", extractedText := t1 }).2
        ++ (handleImageUpdate
            (handleImageUpdate []
              { imageId := id, status := "processing", extractedText := t1 }).1
            { imageId := id, status := "completed", extractedText := t2 }).2).countP
        (fun e => decide (e = DEv.noProcessing)) = 1) := by
  refine ⟨?_, ?_, ?_, ?_⟩
  · by_cases hst : u.status = "processing"
    · by_cases hm : u.imageId ∈ fl <;>
        simp [handleImageUpdate, hst, setAdd, hm]
    · simp [handleImageUpdate, hst, setDelete, List.mem_filter]
  · by_cases hz : ((if u.status = "processing" then setAdd fl u.imageId
        else setDelete fl u.imageId).length = 0) <;>
      simp [handleImageUpdate, hz]
  · by_cases hz : ((if u.status = "processing" then setAdd fl u.imageId
        else setDelete fl u.imageId).length = 0) <;>
      simp [handleImageUpdate, hz]
  · simp [handleImageUpdate, setAdd, setDelete, List.countP_append,
      List.countP_cons]

/-- C9 witness: the `processing`-then-`completed` scenario instantiated at
a concrete document. -/
theorem c9_inflight_witness :
    ((handleImageUpdate []
          { imageId := "doc-1", status := "processing", extractedText := "x" }).2
        ++ (handleImageUpdate
            (handleImageUpdate []
              { imageId := "doc-1", status := "processing",
                extractedText := "x" }).1
            { imageId := "doc-1", status := "completed",
              extractedText := "y" }).2).countP
      (fun e => decide (e = DEv.noProcessing)) = 1 :=
  (c9_inflight_membership_and_noprocessing []
    { imageId := "doc-1", status := "processing", extractedText := "x" }
    "doc-1" "x" "y").2.2.2

/-- C10 witness: resetting a failed session keeps its identity. -/
theorem c10_reset_witness :
    (handleReset failedSt).imageId = failedSt.imageId ∧
    (handleReset failedSt).userId = failedSt.userId :=
  ⟨(c10_reset_preserves_identity failedSt).1,
    (c10_reset_preserves_identity failedSt).2.1⟩

/-- C1 (failing run of the code): deliver a successful `Cancel` while the
task sits at the top of the stream-read loop of a single-page run.  The
handler broadcasts `cancelled` and persists `cancelled`; the task's next
check then throws `Processing cancelled`, which the generic catch block
converts into an `error` broadcast, a persisted `failed` status and a
`failed` in-memory status — two terminal broadcasts for one run, an
`error` accompanying the `cancelled`, and the persisted `cancelled`
overwritten by `failed`. -/
theorem c1_cancel_midstream_double_terminal :
    ((exec onePage c1Moves (TPos.tstart, startedSt)).2.filter isTerminalEv).length = 2 ∧
    Ev.cancelledMsg ∈ (exec onePage c1Moves (TPos.tstart, startedSt)).2 ∧
    Ev.errorMsg "Processing cancelled" ∈ (exec onePage c1Moves (TPos.tstart, startedSt)).2 ∧
    Ev.persistCancelled none ∈ (exec onePage c1Moves (TPos.tstart, startedSt)).2 ∧
    Ev.persistFailed "Processing cancelled" ∈ (exec onePage c1Moves (TPos.tstart, startedSt)).2 ∧
    ((exec onePage c1Moves (TPos.tstart, startedSt)).1.2).status = Status.failed ∧
    (handleCancel ((exec onePage [Move.task, Move.task, Move.task]
        (TPos.tstart, startedSt)).1.2)).1.2 = CancelResp.cancelled := by decide

/-- C2 counterexample: in the single-page scenario with fragments `"AB"`,
`"CD"`, both fragments have been broadcast as `chunk` events when the
task sits mid-stream, yet a `GetStatus` snapshot taken there reports
text length 0 (not 4): fragments accumulate in `processPage`'s local
buffer and reach `extractedText` only at the page boundary. -/
theorem c2_midstream_text_not_accumulated :
    Ev.chunk "AB" ∈ (exec onePage c2MidMoves (TPos.tstart, startedSt)).2 ∧
    Ev.chunk "CD" ∈ (exec onePage c2MidMoves (TPos.tstart, startedSt)).2 ∧
    (handleStatus ((exec onePage c2MidMoves (TPos.tstart, startedSt)).1.2)).status
      = Status.processing ∧
    (handleStatus ((exec onePage c2MidMoves (TPos.tstart, startedSt)).1.2)).textLength = 0 ∧
    (handleStatus ((exec onePage c2MidMoves (TPos.tstart, startedSt)).1.2)).textLength ≠ 4 := by
  decide

/-- C2 amended: every fragment is broadcast as a `chunk` event the moment
it arrives (in order), but is appended to the per-page buffer;
`accumulatedText` is updated only at the page boundary, so mid-stream
`GetStatus` reports length 0 while after stream end the status is
`completed` and the persisted and in-memory text is `"ABCD"`. -/
theorem c2_chunks_immediate_text_per_page :
    ((exec onePage (List.replicate 7 Move.task) (TPos.tstart, startedSt)).2.filter isChunkEv)
      = [Ev.chunk "AB", Ev.chunk "CD"] ∧
    ((exec onePage (List.replicate 7 Move.task) (TPos.tstart, startedSt)).1.2).status
      = Status.completed ∧
    ((exec onePage (List.replicate 7 Move.task) (TPos.tstart, startedSt)).1.2).extractedText
      = "ABCD" ∧
    Ev.persistCompleted "ABCD"
      ∈ (exec onePage (List.replicate 7 Move.task) (TPos.tstart, startedSt)).2 ∧
    Ev.complete "ABCD" 0
      ∈ (exec onePage (List.replicate 7 Move.task) (TPos.tstart, startedSt)).2 ∧
    (handleStatus ((exec onePage c2MidMoves (TPos.tstart, startedSt)).1.2)).textLength = 0 := by
  decide

/-- C4 counterexample: in `t4` the window's length-20 suffix (`phraseP`)
recurs exactly once earlier in the window (at index 10), so the claim's
"recurs at least once earlier" condition holds, yet the detector reports
no repetition — the code fires only when the suffix occurs at least
*twice* earlier (`count >= 2`). -/
theorem c4_single_recurrence_not_detected :
    detectRepetition t4 = false ∧
    50 ≤ t4.length ∧
    2 * 20 ≤ (tailWindow t4).length ∧
    occursAt (tailRest t4 20) (tailPhrase t4 20) 10 = true ∧
    countOcc (tailRest t4 20) (tailPhrase t4 20) = 1 := by decide

/-- C4 amended: the detector, a pure function of the text, reports
repetition exactly when the text has at least 50 characters and, for
some phrase length 20..150 that fits twice into the trailing 500-char
window, the window's suffix of that length occurs at least twice
(possibly overlapping) at earlier positions in the window.  Only the
suffix phrase is tested, and a single earlier recurrence is not
enough. -/
theorem c4_detect_iff_suffix_twice_in_window (t : List Char) :
    detectRepetition t = true ↔
      50 ≤ t.length ∧ ∃ len, 20 ≤ len ∧ len ≤ 150 ∧
        2 * len ≤ (tailWindow t).length ∧
        ∃ i j, i < j ∧ occursAt (tailRest t len) (tailPhrase t len) i = true ∧
          occursAt (tailRest t len) (tailPhrase t len) j = true := by
  unfold detectRepetition
  by_cases h50 : t.length < 50
  · rw [if_pos h50]
    constructor
    · intro h; cases h
    · rintro ⟨h, -⟩; omega
  · rw [if_neg h50, List.any_eq_true]
    constructor
    · rintro ⟨len, hmem, hpred⟩
      rw [List.mem_range'_1] at hmem
      by_cases hw : (tailWindow t).length < 2 * len
      · rw [if_pos hw] at hpred; cases hpred
      · rw [if_neg hw] at hpred
        have hcnt := of_decide_eq_true hpred
        obtain ⟨i, j, hij, hi, hj⟩ := countOcc_two_exists _ _ hcnt
        exact ⟨by omega, len, by omega, by omega, by omega, i, j, hij, hi, hj⟩
    · rintro ⟨h50', len, h20, h150, hw, i, j, hij, hi, hj⟩
      refine ⟨len, List.mem_range'_1.mpr (by omega), ?_⟩
      rw [if_neg (by omega)]
      apply decide_eq_true
      have hpat : tailPhrase t len ≠ [] := by
        have hlen : (tailPhrase t len).length = len := by
          unfold tailPhrase
          rw [List.length_drop]
          omega
        intro he
        rw [he] at hlen
        simp only [List.length_nil] at hlen
        omega
      exact exists_countOcc_two _ _ hpat i j hij hi hj

/-- A successful `indexOf` scan returns an occurrence at or after the
start index. -/
theorem idxOfFromAux_some (t pat : List Char) :
    ∀ (fuel i c : Nat), idxOfFromAux t pat i fuel = some c →
      i ≤ c ∧ occursAt t pat c = true := by
  intro fuel
  induction fuel with
  | zero => intro i c h; cases h
  | succ n ih =>
    intro i c h
    unfold idxOfFromAux at h
    by_cases ho : occursAt t pat i = true
    · rw [if_pos ho] at h
      cases h
      exact ⟨Nat.le_refl _, ho⟩
    · rw [if_neg ho] at h
      obtain ⟨h1, h2⟩ := ih (i + 1) c h
      exact ⟨by omega, h2⟩

/-- If the pattern occurs nowhere at or after the start index, the
`indexOf` scan fails. -/
theorem idxOfFromAux_eq_none (t pat : List Char) :
    ∀ (fuel i : Nat), (∀ j, i ≤ j → occursAt t pat j = false) →
      idxOfFromAux t pat i fuel = none := by
  intro fuel
  induction fuel with
  | zero => intro i h; rfl
  | succ n ih =>
    intro i h
    unfold idxOfFromAux
    rw [if_neg (by simp [h i (Nat.le_refl i)])]
    exact ih (i + 1) (fun j hj => h j (by omega))

/-- A successful inner-loop scan of `trimRepetition` comes from some
admissible phrase start. -/
theorem trimCutForAux_some (t : List Char) (len : Nat) :
    ∀ (fuel start c : Nat), trimCutForAux t len start fuel = some c →
      ∃ s2, start ≤ s2 ∧ s2 < start + fuel ∧
        idxOfFrom t (seg t s2 len) (s2 + len) = some c := by
  intro fuel
  induction fuel with
  | zero => intro start c h; cases h
  | succ n ih =>
    intro start c h
    unfold trimCutForAux at h
    rcases hm : idxOfFrom t (seg t start len) (start + len) with - | nxt
    · rw [hm] at h
      obtain ⟨s2, hs1, hs2, hs3⟩ := ih (start + 1) c h
      exact ⟨s2, by omega, by omega, hs3⟩
    · rw [hm] at h
      cases h
      exact ⟨start, Nat.le_refl _, by omega, hm⟩

/-- If no admissible start has a later recurrence, the inner loop
fails. -/
theorem trimCutForAux_eq_none (t : List Char) (len : Nat) :
    ∀ (fuel start : Nat),
      (∀ s2, start ≤ s2 →
        idxOfFrom t (seg t s2 len) (s2 + len) = none) →
      trimCutForAux t len start fuel = none := by
  intro fuel
  induction fuel with
  | zero => intro start h; rfl
  | succ n ih =>
    intro start h
    unfold trimCutForAux
    rw [h start (Nat.le_refl _)]
    exact ih (start + 1) (fun s2 hs => h s2 (by omega))

/-- A successful outer-loop scan of `trimRepetition` comes from some
phrase length in the scanned range that fits twice into the text. -/
theorem trimCutAux_some (t : List Char) :
    ∀ (fuel len0 c : Nat), trimCutAux t len0 fuel = some c →
      ∃ len, len0 ≤ len ∧ len < len0 + fuel ∧ ¬ t.length < len * 2 ∧
        trimCutFor t len = some c := by
  intro fuel
  induction fuel with
  | zero => intro len0 c h; cases h
  | succ n ih =>
    intro len0 c h
    unfold trimCutAux at h
    by_cases hc : t.length < len0 * 2
    · rw [if_pos hc] at h
      obtain ⟨len, h1, h2, h3, h4⟩ := ih (len0 + 1) c h
      exact ⟨len, by omega, by omega, h3, h4⟩
    · rw [if_neg hc] at h
      rcases hm : trimCutFor t len0 with - | c'
      · rw [hm] at h
        obtain ⟨len, h1, h2, h3, h4⟩ := ih (len0 + 1) c h
        exact ⟨len, by omega, by omega, h3, h4⟩
      · rw [hm] at h
        cases h
        exact ⟨len0, Nat.le_refl _, by omega, hc, hm⟩

/-- If every scanned length that fits twice has a failing inner loop,
the outer loop fails. -/
theorem trimCutAux_eq_none (t : List Char) :
    ∀ (fuel len0 : Nat),
      (∀ len, len0 ≤ len → len < len0 + fuel → ¬ t.length < len * 2 →
        trimCutFor t len = none) →
      trimCutAux t len0 fuel = none := by
  intro fuel
  induction fuel with
  | zero => intro len0 h; rfl
  | succ n ih =>
    intro len0 h
    unfold trimCutAux
    by_cases hc : t.length < len0 * 2
    · rw [if_pos hc]
      exact ih (len0 + 1) (fun len h1 h2 h3 => h len (by omega) (by omega) h3)
    · rw [if_neg hc]
      rw [h len0 (Nat.le_refl _) (by omega) hc]
      exact ih (len0 + 1) (fun len h1 h2 h3 => h len (by omega) (by omega) h3)

/-- C4 witness: the characterisation instantiated at a triple repeat. -/
theorem c4_detect_iff_witness :
    detectRepetition (phraseP ++ phraseP ++ phraseP) = true ↔
      50 ≤ (phraseP ++ phraseP ++ phraseP).length ∧ ∃ len, 20 ≤ len ∧ len ≤ 150 ∧
        2 * len ≤ (tailWindow (phraseP ++ phraseP ++ phraseP)).length ∧
        ∃ i j, i < j ∧
          occursAt (tailRest (phraseP ++ phraseP ++ phraseP) len)
            (tailPhrase (phraseP ++ phraseP ++ phraseP) len) i = true ∧
          occursAt (tailRest (phraseP ++ phraseP ++ phraseP) len)
            (tailPhrase (phraseP ++ phraseP ++ phraseP) len) j = true :=
  c4_detect_iff_suffix_twice_in_window (phraseP ++ phraseP ++ phraseP)

/-- C5 counterexample, refuting both directions of the claim:
(i) `t5` has no repeated trailing substring of any scanned length, yet
`trimRepetition` truncates it down to its first 20 characters — the scan
runs over the whole text, not the tail; (ii) `fillerA ++ phraseP ++
phraseP` ends in a length-20 substring repeated twice, yet is returned
unchanged — the repeated suffix starts at index 10, which the inner
loop's strict bound `start < text.length - len * 2` excludes. -/
theorem c5_trim_ignores_trailing_condition :
    (specTrailingRepeat t5 = false ∧
      trimRepetition t5 = phraseP ∧ t5 ≠ phraseP) ∧
    (specTrailingRepeat (fillerA ++ phraseP ++ phraseP) = true ∧
      trimRepetition (fillerA ++ phraseP ++ phraseP)
        = fillerA ++ phraseP ++ phraseP) := by decide

/-- C5 amended: the truncation step scans the whole committed text, not
a trailing window.  When it cuts at index `c`, the result is the
whitespace-trimmed prefix `text.take c`, and `c` is a genuine second
occurrence: some phrase of a scanned length 20..150 that fits twice,
starting at an admissible index `s2` (with `s2 + len ≤ c`), occurs both
at `s2` and at `c`, and `c` lies strictly inside the text.  When no
phrase of any scanned length recurs at or after `start + len` for any
admissible start, the text is returned unchanged. -/
theorem c5_trim_cut_characterization (t : List Char) :
    (∀ c, trimCut t = some c →
      trimRepetition t = trimWS (t.take c) ∧
      ∃ len s2, 20 ≤ len ∧ len ≤ 150 ∧ 2 * len ≤ t.length ∧
        s2 + len ≤ c ∧ c < t.length ∧
        occursAt t (seg t s2 len) s2 = true ∧
        occursAt t (seg t s2 len) c = true) ∧
    ((∀ len s2 j, 20 ≤ len → len ≤ 150 → 2 * len ≤ t.length →
        s2 + len ≤ j → occursAt t (seg t s2 len) j = false) →
      trimRepetition t = t) := by
  constructor
  · intro c h
    constructor
    · simp [trimRepetition, h]
    · unfold trimCut at h
      obtain ⟨len, h20, h151, hfit, hfor⟩ := trimCutAux_some t 131 20 c h
      obtain ⟨s2, hs0, hslt, hidx⟩ := trimCutForAux_some t len _ 0 c hfor
      obtain ⟨hge, hocc⟩ := idxOfFromAux_some t _ _ _ c hidx
      have hseglen : (seg t s2 len).length = len := by
        unfold seg
        rw [List.length_take, List.length_drop]
        exact Nat.min_eq_left (by omega)
      have hclt : c < t.length := by
        have hpfx : seg t s2 len <+: t.drop c := by
          rw [occursAt, List.isPrefixOf_iff_prefix] at hocc
          exact hocc
        have hle := hpfx.length_le
        rw [List.length_drop, hseglen] at hle
        omega
      have hoccs2 : occursAt t (seg t s2 len) s2 = true := by
        rw [occursAt, List.isPrefixOf_iff_prefix]
        exact List.take_prefix _ _
      exact ⟨len, s2, by omega, by omega, by omega, hge, hclt, hoccs2, hocc⟩
  · intro H
    have hnone : trimCut t = none := by
      unfold trimCut
      apply trimCutAux_eq_none
      intro len h1 h2 h3
      unfold trimCutFor
      apply trimCutForAux_eq_none
      intro s2 hs
      unfold idxOfFrom
      apply idxOfFromAux_eq_none
      intro j hj
      exact H len s2 j (by omega) (by omega) (by omega) (by omega)
    simp [trimRepetition, hnone]

/-- C5 witness: on concrete text with an interior 20-character repeat,
the theorem instantiates: the cut lands at index 30, the second
occurrence of the phrase starting at index 10. -/
theorem c5_trim_cut_witness :
    trimRepetition (fillerA ++ phraseP ++ phraseP ++ ['!'])
      = trimWS ((fillerA ++ phraseP ++ phraseP ++ ['!']).take 30) ∧
    ∃ len s2, 20 ≤ len ∧ len ≤ 150 ∧
      2 * len ≤ (fillerA ++ phraseP ++ phraseP ++ ['!']).length ∧
      s2 + len ≤ 30 ∧ 30 < (fillerA ++ phraseP ++ phraseP ++ ['!']).length ∧
      occursAt (fillerA ++ phraseP ++ phraseP ++ ['!'])
        (seg (fillerA ++ phraseP ++ phraseP ++ ['!']) s2 len) s2 = true ∧
      occursAt (fillerA ++ phraseP ++ phraseP ++ ['!'])
        (seg (fillerA ++ phraseP ++ phraseP ++ ['!']) s2 len) 30 = true :=
  (c5_trim_cut_characterization (fillerA ++ phraseP ++ phraseP ++ ['!'])).1 30 (by decide)

/-- During the streaming loop the accumulated text only grows: the text
on entry is a prefix of the text on exit. -/
theorem streamLoop_grows :
    ∀ (frags : List (List Char)) (acc : List Char) (cc : Nat),
      acc <+: (streamLoop frags acc cc).1 := by
  intro frags
  induction frags with
  | nil => intro acc cc; exact List.prefix_refl _
  | cons f rest ih =>
    intro acc cc
    by_cases hf : f = []
    · have hstep : streamLoop (f :: rest) acc cc =
          (if cc % 10 = 0 ∧ 0 < cc ∧ detectRepetition acc = true
           then (acc, true, rest) else streamLoop rest acc cc) := by
        subst hf; rfl
      rw [hstep]
      split
      · exact List.prefix_refl _
      · exact ih _ _
    · have hstep : streamLoop (f :: rest) acc cc =
          (if (cc + 1) % 10 = 0 ∧ 0 < cc + 1 ∧
              detectRepetition (acc ++ f) = true
           then (acc ++ f, true, rest)
           else streamLoop rest (acc ++ f) (cc + 1)) := by
        simp only [streamLoop]
        rw [if_neg hf, if_neg hf]
      rw [hstep]
      split
      · exact List.prefix_append _ _
      · exact List.IsPrefix.trans (List.prefix_append _ _) (ih _ _)

/-- When the loop never detects repetition, it consumes every fragment
and appends them all. -/
theorem streamLoop_no_detection :
    ∀ (frags : List (List Char)) (acc : List Char) (cc : Nat),
      (streamLoop frags acc cc).2.1 = false →
      (streamLoop frags acc cc).1 = acc ++ frags.flatten ∧
        (streamLoop frags acc cc).2.2 = [] := by
  intro frags
  induction frags with
  | nil => intro acc cc h; simp [streamLoop]
  | cons f rest ih =>
    intro acc cc h
    by_cases hf : f = []
    · have hstep : streamLoop (f :: rest) acc cc =
          (if cc % 10 = 0 ∧ 0 < cc ∧ detectRepetition acc = true
           then (acc, true, rest) else streamLoop rest acc cc) := by
        subst hf; rfl
      rw [hstep] at h ⊢
      by_cases hC : (cc % 10 = 0 ∧ 0 < cc ∧ detectRepetition acc = true)
      · rw [if_pos hC] at h; simp at h
      · rw [if_neg hC] at h ⊢
        obtain ⟨h1, h2⟩ := ih acc cc h
        refine ⟨?_, h2⟩
        rw [h1, List.flatten_cons, hf]
        simp
    · have hstep : streamLoop (f :: rest) acc cc =
          (if (cc + 1) % 10 = 0 ∧ 0 < cc + 1 ∧
              detectRepetition (acc ++ f) = true
           then (acc ++ f, true, rest)
           else streamLoop rest (acc ++ f) (cc + 1)) := by
        simp only [streamLoop]
        rw [if_neg hf, if_neg hf]
      rw [hstep] at h ⊢
      by_cases hC : ((cc + 1) % 10 = 0 ∧ 0 < cc + 1 ∧
          detectRepetition (acc ++ f) = true)
      · rw [if_pos hC] at h; simp at h
      · rw [if_neg hC] at h ⊢
        obtain ⟨h1, h2⟩ := ih (acc ++ f) (cc + 1) h
        refine ⟨?_, h2⟩
        rw [h1, List.flatten_cons, List.append_assoc]

/-- C6 counterexample: feed ten copies of `phraseP` and then `fillerA`.
Repetition is detected at chunk 10, *mid-stream*: the loop stops with
`fillerA` unconsumed, its content (`'0'`) never reaches the committed
text, and the committed text is the truncation of the first ten chunks
— the truncation is triggered by a mid-stream check, not applied once
after the last page over the full fragment sequence. -/
theorem c6_detection_stops_stream_midrun :
    (streamLoop c6frags [] 0).2.1 = true ∧
    (streamLoop c6frags [] 0).2.2 = [fillerA] ∧
    commitText c6frags = phraseP ∧
    '0' ∈ fillerA ∧
    ¬ '0' ∈ commitText c6frags := by decide

/-- C6 amended: during a run of the single-page variant the accumulated
text never shrinks while streaming (each fragment only appends); when no
repetition is detected every fragment is consumed and appended; the
repetition check runs mid-stream (every 10 chunks, over the trailing
window) and on detection stops the stream early, after which
`trimRepetition` is applied at most once, to the entire accumulated
text; and the only other operations that empty the text are `Reset` and
an accepted new `StartProcessing`. -/
theorem c6_text_growth_and_single_trim
    (frags : List (List Char)) (acc : List Char) (cc : Nat) :
    (acc <+: (streamLoop frags acc cc).1) ∧
    ((streamLoop frags acc cc).2.1 = false →
      (streamLoop frags acc cc).1 = acc ++ frags.flatten ∧
        (streamLoop frags acc cc).2.2 = []) ∧
    (commitText frags = trimWS (streamLoop frags [] 0).1 ∨
      commitText frags = trimWS (trimRepetition (streamLoop frags [] 0).1)) ∧
    (∀ s : St, (handleReset s).extractedText = "") ∧
    (∀ (s : St) (r : ProcessRequest), (handleProcess s r).2 = ProcResp.accepted →
      (handleProcess s r).1.extractedText = "") := by
  refine ⟨streamLoop_grows frags acc cc, streamLoop_no_detection frags acc cc,
    ?_, ?_, ?_⟩
  · rcases hrun : streamLoop frags [] 0 with ⟨a, d, rem⟩
    cases d
    · left; simp [commitText, hrun]
    · right; simp [commitText, hrun]
  · intro s; simp [handleReset]
  · intro s r h
    by_cases hp : s.isProcessing
    · simp [handleProcess, hp] at h
    · simp [handleProcess, hp]

/-- C6 witness: a single short fragment triggers no detection, so the
loop consumes it and appends it whole. -/
theorem c6_text_growth_witness :
    (streamLoop [phraseP] [] 0).1 = [] ++ [phraseP].flatten ∧
    (streamLoop [phraseP] [] 0).2.2 = [] :=
  (c6_text_growth_and_single_trim [phraseP] [] 0).2.1 (by decide)

/-- The chunk events of a stream, one fragment at a time. -/
theorem chunkEvents_cons (f : String) (l : List String) :
    chunkEvents (f :: l)
      = (if f = "" then [] else [Ev.chunk f]) ++ chunkEvents l := by
  by_cases hf : f = "" <;> simp [chunkEvents, List.filterMap_cons, hf]

/-- Running a concatenated schedule runs the two halves in sequence and
concatenates their traces. -/
theorem exec_append (pages : List (List String)) :
    ∀ (ms1 ms2 : List Move) (cfg : TPos × St),
      exec pages (ms1 ++ ms2) cfg =
        ((exec pages ms2 (exec pages ms1 cfg).1).1,
          (exec pages ms1 cfg).2 ++ (exec pages ms2 (exec pages ms1 cfg).1).2) := by
  intro ms1
  induction ms1 with
  | nil => intro ms2 cfg; simp [exec]
  | cons m rest ih =>
    intro ms2 cfg
    cases m with
    | task =>
      simp only [List.cons_append, exec, List.append_eq]
      rw [ih]
      simp [List.append_assoc]
    | cancel =>
      rcases cfg with ⟨pos, s⟩
      simp only [List.cons_append, exec, List.append_eq]
      rw [ih]
      simp [List.append_assoc]

/-- Running the task alone through a page's stream: with the cancel flag
clear, `j + 1` task steps from position `i` (with `j` fragments left)
broadcast the remaining chunks, the multi-page `page-complete`, and move
to the next page top with `extractedText` updated to the join of the
pages finished so far. -/
theorem exec_stream (pages : List (List String)) (k : Nat) :
    ∀ (j : Nat) (s : St), s.isCancelled = false →
      ∀ i : Nat, i + j = (pages.getD k []).length →
      exec pages (List.replicate (j + 1) Move.task) (TPos.stream k i, s) =
        ((TPos.pageTop (k + 1),
            { s with extractedText := String.intercalate PAGE_DELIMITER ((pages.take (k + 1)).map pageTextOf) }),
          chunkEvents ((pages.getD k []).drop i)
            ++ (if 1 < pages.length then
                  [Ev.pageComplete (k + 1) pages.length
                    (pageTextOf (pages.getD k []))]
                else [])) := by
  intro j
  induction j with
  | zero =>
    intro s hs i hi
    have hieq : i = (pages.getD k []).length := by omega
    subst hieq
    simp only [List.replicate_succ, List.replicate_zero, exec, step]
    rw [if_neg (by simp [hs]), if_neg (lt_irrefl _)]
    simp [chunkEvents, List.drop_length]
  | succ n ih =>
    intro s hs i hi
    have hlt : i < (pages.getD k []).length := by omega
    rw [show n + 1 + 1 = 1 + (n + 1) from by omega, List.replicate_add,
      exec_append]
    have hstep1 : exec pages (List.replicate 1 Move.task) (TPos.stream k i, s)
        = ((TPos.stream k (i + 1), s),
            if (pages.getD k []).getD i "" = "" then []
            else [Ev.chunk ((pages.getD k []).getD i "")]) := by
      simp only [List.replicate_succ, List.replicate_zero, exec, step]
      rw [if_neg (by simp [hs]), if_pos hlt]
      simp
    rw [hstep1, ih s hs (i + 1) (by omega)]
    have hdrop : (pages.getD k []).drop i
        = (pages.getD k []).getD i "" :: (pages.getD k []).drop (i + 1) := by
      rw [List.getD_eq_getElem _ _ hlt]
      exact List.drop_eq_getElem_cons hlt
    rw [hdrop, chunkEvents_cons, List.append_assoc]

/-- Running the task alone through the page loop from page `k` to
completion: the trace is the per-page blocks in order followed by the
completion events, the final state is `completed`, and the final text is
the delimiter-join of all page texts. -/
theorem exec_pages (pages : List (List String)) :
    ∀ (d k : Nat) (s : St), s.isCancelled = false → k + d = pages.length →
      exec pages
        (List.replicate (((pages.drop k).map (fun p => p.length + 2)).sum + 2)
          Move.task)
        (TPos.pageTop k, s) =
      ((TPos.finished,
          { s with
              extractedText :=
                if k < pages.length then finalTextOf pages else s.extractedText,
              status := Status.completed, isProcessing := false }),
        ((List.range (pages.length - k)).map (fun j =>
            (if 1 < pages.length then [Ev.pageStart (k + j + 1) pages.length]
              else [])
              ++ chunkEvents (pages.getD (k + j) [])
              ++ (if 1 < pages.length then
                    [Ev.pageComplete (k + j + 1) pages.length
                      (pageTextOf (pages.getD (k + j) []))]
                  else []))).flatten
          ++ endEvts pages s.processingTimeMs) := by
  intro d
  induction d with
  | zero =>
    intro k s hs hk
    have hkeq : k = pages.length := by omega
    subst hkeq
    rw [List.drop_length]
    simp only [List.map_nil, List.sum_nil, Nat.zero_add, Nat.sub_self,
      List.range_zero, List.map_nil, List.flatten_nil, List.nil_append]
    have hstepA : step pages (TPos.pageTop pages.length, s)
        = ((TPos.afterPages, s), []) := by
      simp only [step]
      rw [if_neg (lt_irrefl _)]
    have hstepB : step pages (TPos.afterPages, s)
        = ((TPos.finished,
              { s with status := Status.completed, isProcessing := false }),
            endEvts pages s.processingTimeMs) := by
      simp only [step]
      rw [if_neg (by simp [hs])]
      simp [endEvts, finalTextOf]
    simp only [List.replicate_succ, List.replicate_zero, exec]
    rw [hstepA]
    dsimp only
    rw [hstepB]
    simp [endEvts, finalTextOf]
  | succ n ih =>
    intro k s hs hk
    have hklt : k < pages.length := by omega
    have hdropk : pages.drop k = pages[k] :: pages.drop (k + 1) :=
      List.drop_eq_getElem_cons hklt
    rw [hdropk]
    simp only [List.map_cons, List.sum_cons]
    rw [show pages[k].length + 2
          + ((pages.drop (k + 1)).map (fun p => p.length + 2)).sum + 2
        = 1 + ((pages[k].length + 1)
          + (((pages.drop (k + 1)).map (fun p => p.length + 2)).sum + 2))
        from by omega]
    rw [List.replicate_add, List.replicate_add, exec_append, exec_append]
    have hstep1 : exec pages (List.replicate 1 Move.task) (TPos.pageTop k, s)
        = ((TPos.stream k 0, s),
            if 1 < pages.length then [Ev.pageStart (k + 1) pages.length]
            else []) := by
      simp only [List.replicate_succ, List.replicate_zero, exec, step]
      rw [if_pos hklt, if_neg (by simp [hs])]
      simp
    rw [hstep1]
    have hgd : pages.getD k [] = pages[k] := List.getD_eq_getElem _ _ hklt
    rw [exec_stream pages k pages[k].length s hs 0 (by rw [hgd]; omega)]
    set s1 : St :=
      { s with extractedText := String.intercalate PAGE_DELIMITER ((pages.take (k + 1)).map pageTextOf) } with hs1
    have hs1c : s1.isCancelled = false := by rw [hs1]; exact hs
    rw [ih (k + 1) s1 hs1c (by omega)]
    have hms : s1.processingTimeMs = s.processingTimeMs := by rw [hs1]
    have htext :
        (if k + 1 < pages.length then finalTextOf pages else s1.extractedText)
          = finalTextOf pages := by
      by_cases hk1 : k + 1 < pages.length
      · rw [if_pos hk1]
      · rw [if_neg hk1, hs1]
        have : k + 1 = pages.length := by omega
        simp only [this, List.take_length]
        rfl
    rw [hms, htext]
    have hrange : pages.length - k = (pages.length - (k + 1)) + 1 := by omega
    rw [hrange, List.range_succ_eq_map, List.map_cons, List.map_map,
      List.flatten_cons]
    have hmaps :
        (List.map (fun j =>
            (if 1 < pages.length then [Ev.pageStart (k + 1 + j + 1) pages.length]
              else [])
              ++ chunkEvents (pages.getD (k + 1 + j) [])
              ++ (if 1 < pages.length then
                    [Ev.pageComplete (k + 1 + j + 1) pages.length
                      (pageTextOf (pages.getD (k + 1 + j) []))]
                  else []))
          (List.range (pages.length - (k + 1))))
        = (List.map ((fun j =>
            (if 1 < pages.length then [Ev.pageStart (k + j + 1) pages.length]
              else [])
              ++ chunkEvents (pages.getD (k + j) [])
              ++ (if 1 < pages.length then
                    [Ev.pageComplete (k + j + 1) pages.length
                      (pageTextOf (pages.getD (k + j) []))]
                  else [])) ∘ Nat.succ)
          (List.range (pages.length - (k + 1)))) := by
      apply List.map_congr_left
      intro a ha
      simp only [Function.comp]
      have h1 : k + 1 + a = k + Nat.succ a := by omega
      rw [h1]
    rw [hmaps]
    simp only [Nat.add_zero, List.drop_zero]
    rw [if_pos hklt]
    simp [List.append_assoc]

/-- Chunk events are never page events. -/
theorem chunkEvents_no_pageEv (l : List String) :
    (chunkEvents l).filter isPageEv = [] := by
  rw [List.filter_eq_nil_iff]
  intro e he
  obtain ⟨f, hfmem, hfe⟩ := List.mem_filterMap.mp he
  by_cases hf : f = ""
  · rw [if_pos hf] at hfe; cases hfe
  · rw [if_neg hf] at hfe
    cases hfe
    simp [isPageEv]

/-- C7: for a cancel-free run, pages are processed strictly sequentially:
the whole trace is the prologue, then for each page `k` in order 1..n
its block — `page-start`, that page's chunks, `page-complete` with the
page's text — and finally the completion events carrying the final text,
which is the ordered concatenation of the per-page texts joined by the
page-break marker; for single-page runs no `page-start`/`page-complete`
event appears anywhere in the trace. -/
theorem c7_pages_sequential_events_ordered (pages : List (List String)) :
    (2 ≤ pages.length →
      exec pages (List.replicate (movesFor pages) Move.task)
          (TPos.tstart, startedSt)
        = ((TPos.finished,
            { startedSt with
                extractedText := finalTextOf pages,
                status := Status.completed, isProcessing := false }),
          startEvts
            ++ ((List.range pages.length).map (fun k =>
                  expectedPageBlock pages.length k (pages.getD k []))).flatten
            ++ endEvts pages 0)) ∧
    (pages.length = 1 →
      ((exec pages (List.replicate (movesFor pages) Move.task)
          (TPos.tstart, startedSt)).2.filter isPageEv) = []) := by
  have hc0 : startedSt.isCancelled = false := rfl
  have hms0 : startedSt.processingTimeMs = 0 := rfl
  have hstep0 : exec pages (List.replicate 1 Move.task)
      (TPos.tstart, startedSt) = ((TPos.pageTop 0, startedSt), startEvts) := by
    simp only [List.replicate_succ, List.replicate_zero, exec, step]
    rw [if_neg (by simp [hc0])]
    simp [startEvts]
  have hrun : exec pages (List.replicate (movesFor pages) Move.task)
      (TPos.tstart, startedSt)
      = ((TPos.finished,
          { startedSt with
              extractedText :=
                if 0 < pages.length then finalTextOf pages
                else startedSt.extractedText,
              status := Status.completed, isProcessing := false }),
        startEvts
          ++ (((List.range pages.length).map (fun j =>
                (if 1 < pages.length then [Ev.pageStart (0 + j + 1) pages.length]
                  else [])
                  ++ chunkEvents (pages.getD (0 + j) [])
                  ++ (if 1 < pages.length then
                        [Ev.pageComplete (0 + j + 1) pages.length
                          (pageTextOf (pages.getD (0 + j) []))]
                      else []))).flatten
            ++ endEvts pages 0)) := by
    have hm : movesFor pages
        = 1 + (((pages.drop 0).map (fun p => p.length + 2)).sum + 2) := by
      rw [List.drop_zero]
      unfold movesFor
      omega
    rw [hm, List.replicate_add, exec_append, hstep0]
    dsimp only
    rw [exec_pages pages pages.length 0 startedSt hc0 (by omega)]
    rw [Nat.sub_zero, hms0]
  constructor
  · intro h2
    rw [hrun]
    rw [if_pos (by omega : 0 < pages.length)]
    have hblocks : (List.range pages.length).map (fun j =>
        (if 1 < pages.length then [Ev.pageStart (0 + j + 1) pages.length]
          else [])
          ++ chunkEvents (pages.getD (0 + j) [])
          ++ (if 1 < pages.length then
                [Ev.pageComplete (0 + j + 1) pages.length
                  (pageTextOf (pages.getD (0 + j) []))]
              else []))
        = (List.range pages.length).map (fun k =>
            expectedPageBlock pages.length k (pages.getD k [])) := by
      apply List.map_congr_left
      intro a ha
      rw [if_pos (by omega : 1 < pages.length),
        if_pos (by omega : 1 < pages.length)]
      simp [expectedPageBlock, Nat.zero_add]
    rw [hblocks]
    simp [List.append_assoc]
  · intro h1
    rw [hrun]
    simp only [h1]
    rw [List.filter_append, List.filter_append]
    have e1 : List.filter isPageEv startEvts = [] := rfl
    have e3 : List.filter isPageEv (endEvts pages 0) = [] := rfl
    rw [e1, e3]
    rw [show List.range 1 = [0] from rfl]
    simp only [List.map_cons, List.map_nil, List.flatten_cons,
      List.flatten_nil, List.append_nil, Nat.zero_add]
    rw [if_neg (lt_irrefl 1), if_neg (lt_irrefl 1)]
    simp [chunkEvents_no_pageEv]

/-- C7 witness: the two-page run with fragments `"AB"` and `"CD"`. -/
theorem c7_pages_sequential_witness :
    exec [["AB"], ["CD"]]
        (List.replicate (movesFor [["AB"], ["CD"]]) Move.task)
        (TPos.tstart, startedSt)
      = ((TPos.finished,
          { startedSt with
              extractedText := finalTextOf [["AB"], ["CD"]],
              status := Status.completed, isProcessing := false }),
        startEvts
          ++ ((List.range ([["AB"], ["CD"]] : List (List String)).length).map
                (fun k => expectedPageBlock ([["AB"], ["CD"]] : List (List String)).length k
                  (([["AB"], ["CD"]] : List (List String)).getD k []))).flatten
          ++ endEvts [["AB"], ["CD"]] 0) :=
  (c7_pages_sequential_events_ordered [["AB"], ["CD"]]).1 (by decide)

end Itsocr
